import Mathlib

/-!
# Verification of the bign-handheld-thumbnailer Nintendo 3DS container parsers

Shallow embedding of `src/n3ds/n3ds_structures.rs`: the cascading resolvers
(`from_smdh`, `from_n3dsx`, `from_cia`, `from_cci`, `from_cxi`, `from_exefs`),
the CIA meta-size enumeration, the CCI partition and ExeFS directory-entry
decoders, and the Morton-order icon pixel decoder.

The byte stream (`Read + Seek` in Rust, used on a plain `File`) is modelled as
an immutable byte list plus a cursor. `read_exact` succeeds exactly when the
requested bytes are available; seeking to an absolute offset always succeeds
(as for a file, even past the end); a relative seek fails exactly when the
resulting position would be negative. Integer arithmetic follows Rust release
semantics: fixed-width operations wrap, written with explicit `% 2 ^ 32`
(resp. `% 2 ^ 64`) at the operations where overflow is possible.
-/

/-- A seekable byte source: the underlying bytes and the current position.
Bytes are `Nat` values `< 256`. -/
structure ByteStream where
  data : List Nat
  pos : Nat
deriving DecidableEq, Repr

/-- `CIAMetaSize`: the closed enumeration of legal values of the CIA
meta-section size field. -/
inductive CIAMetaSize where
  | none
  | cVerUSA
  | dummy
  | present
deriving DecidableEq, Repr

/-- The error taxonomy: one constructor per error type constructed in
`n3ds_structures.rs` (the distinct Rust error structs are unified here the way
`Box<dyn Error>` unifies them), plus `ioFailure` for failures of the
underlying stream and `exefsUtf8Error` for `str::from_utf8` failures. -/
inductive FileError where
  | ioFailure
  | smdhMagicNotFound
  | n3dsxMagicNotFound
  | n3dsxNoExtendedHeader (headerSize : Nat)
  | ciaMetaInvalidSize (value : Nat)
  | ciaMetaNotExpectedValue (kind : CIAMetaSize)
  | cciMagicNotFound
  | cciNoExecutableContentPartition
  | cxiMagicNotFound
  | cxiFileEncrypted
  | exefsIconFileNotFound
  | exefsUtf8Error
deriving DecidableEq, Repr

/-- The `n` bytes of `d` starting at position `p` (fewer if `d` is short). -/
def bytesAt (d : List Nat) (p n : Nat) : List Nat :=
  (d.drop p).take n

/-- Little-endian interpretation of a byte list, as in
`u16/u32/u64::from_le_bytes`. -/
def leNat : List Nat → Nat
  | [] => 0
  | b :: rest => b + 256 * leNat rest

/-- `Read::read_exact` into an `n`-byte buffer: fails (with `UnexpectedEof`)
exactly when fewer than `n` bytes remain. -/
def readExact (s : ByteStream) (n : Nat) : Except FileError (List Nat × ByteStream) :=
  if s.pos + n ≤ s.data.length then
    .ok (bytesAt s.data s.pos n, ⟨s.data, s.pos + n⟩)
  else
    .error .ioFailure

/-- `Seek::seek(SeekFrom::Start t)`: never fails on a file, even past the
end. -/
def seekStart (s : ByteStream) (t : Nat) : ByteStream :=
  ⟨s.data, t⟩

/-- `Seek::seek(SeekFrom::Current off)`: fails exactly when the resulting
position would be negative. -/
def seekCurrent (s : ByteStream) (off : Int) : Except FileError ByteStream :=
  if (s.pos : Int) + off < 0 then
    .error .ioFailure
  else
    .ok ⟨s.data, ((s.pos : Int) + off).toNat⟩

/-- Rust's unsigned `div_ceil` (no intermediate overflow for divisor 64). -/
def rustDivCeil (a b : Nat) : Nat :=
  a / b + if a % b = 0 then 0 else 1

/-- Modelled from the spec: the color codec of `src/utils/rgb565.rs`, which is
not among the available sources. Packed 16-bit layout: 5 bits red (high),
6 bits green (middle), 5 bits blue (low). The spec leaves the 5/6-bit-to-8-bit
expansion formula open, so the channels are kept as the raw extracted field
values; the spec states the codec is total over all 65536 inputs (no failure
modes), so `Rgb565::try_from` is modelled as always succeeding. -/
structure Rgb565 where
  r : Nat
  g : Nat
  b : Nat
deriving DecidableEq, Repr

/-- Modelled from the spec: decode one packed 16-bit sample into its three
channel fields. -/
def Rgb565.ofU16 (v : Nat) : Rgb565 :=
  ⟨v >>> 11, (v >>> 5) &&& 0x3F, v &&& 0x1F⟩

/-- One `Pixbuf::put_pixel` call: coordinates, channels, alpha. -/
structure PixelWrite where
  x : Nat
  y : Nat
  r : Nat
  g : Nat
  b : Nat
  a : Nat
deriving DecidableEq, Repr

/-- The `chunks_exact(2)` + `u16::from_le_bytes` pass of
`generate_pixbuf_from_bytes`: consecutive byte pairs as little-endian 16-bit
samples (a trailing odd byte is dropped, as by `chunks_exact`). -/
def toSamples : List Nat → List Nat
  | b0 :: b1 :: rest => (b0 + 256 * b1) :: toSamples rest
  | _ => []

/-- The fixed 64-entry Morton-order permutation `tile_order`. -/
def tile_order : List Nat :=
  [0, 1, 8, 9, 2, 3, 10, 11, 16, 17, 24, 25, 18, 19, 26, 27, 4, 5, 12, 13, 6, 7, 14, 15,
   20, 21, 28, 29, 22, 23, 30, 31, 32, 33, 40, 41, 34, 35, 42, 43, 48, 49, 56, 57, 50, 51,
   58, 59, 36, 37, 44, 45, 38, 39, 46, 47, 52, 53, 60, 61, 54, 55, 62, 63]

/-- The iteration order of the triple loop in `generate_pixbuf_from_bytes`:
`tile_y` outermost, then `tile_x`, then `k`. -/
def loopIndices : List (Nat × Nat × Nat) :=
  (List.range 6).flatMap fun tile_y =>
    (List.range 6).flatMap fun tile_x =>
      (List.range 64).map fun k => (tile_y, tile_x, k)

/-- `SMDHIcon::generate_pixbuf_from_bytes`, with the resulting `Pixbuf`
represented by the ordered list of `put_pixel` calls it performs. `pos` starts
at 0 and increments once per innermost iteration, which is exactly the
enumeration index of the loop order. -/
def generate_pixbuf_from_bytes (large_icon_bytes : List Nat) : List PixelWrite :=
  let large_icon_data := toSamples large_icon_bytes
  loopIndices.enum.map fun pik =>
    let t := tile_order.getD pik.2.2.2 0
    let x := (t &&& 0x7) + pik.2.2.1 * 8
    let y := (t >>> 3) + pik.2.1 * 8
    let rgb := Rgb565.ofU16 (large_icon_data.getD pik.1 0)
    ⟨x, y, rgb.r, rgb.g, rgb.b, 0xFF⟩

/-- `SMDHIcon`: the parsed icon, represented by its pixel writes. -/
structure SMDHIcon where
  large_icon : List PixelWrite
deriving DecidableEq, Repr

/-- The bytes of the ASCII signature `"SMDH"`. -/
def smdhMagicBytes : List Nat := [83, 77, 68, 72]

/-- `SMDHIcon::from_smdh`. -/
def SMDHIcon.from_smdh (file_data : ByteStream) : Except FileError SMDHIcon := do
  let (smdh_magic, s) ← readExact file_data 4
  if smdhMagicBytes ≠ smdh_magic then
    throw .smdhMagicNotFound
  let s ← seekCurrent s (0x24C0 - 0x04)
  let (large_icon_bytes, _) ← readExact s 0x1200
  return ⟨generate_pixbuf_from_bytes large_icon_bytes⟩

/-- The bytes of the ASCII signature `"3DSX"`. -/
def n3dsxMagicBytes : List Nat := [51, 68, 83, 88]

/-- `SMDHIcon::from_n3dsx`. -/
def SMDHIcon.from_n3dsx (file_data : ByteStream) : Except FileError SMDHIcon := do
  let (n3dsx_magic, s) ← readExact file_data 4
  if n3dsxMagicBytes ≠ n3dsx_magic then
    throw .n3dsxMagicNotFound
  let (header_size_bytes, s) ← readExact s 2
  let header_size := leNat header_size_bytes
  if ¬ header_size > 32 then
    throw (.n3dsxNoExtendedHeader header_size)
  let s := seekStart s 0x20
  let (smdh_offset_bytes, s) ← readExact s 4
  let smdh_offset := leNat smdh_offset_bytes
  let (smdh_size_bytes, s) ← readExact s 4
  let _smdh_size := leNat smdh_size_bytes
  let s := seekStart s smdh_offset
  SMDHIcon.from_smdh s

/-- `CIAMetaSize::try_from` (`TryFrom<u32>`). -/
def CIAMetaSize.try_from (value : Nat) : Except FileError CIAMetaSize :=
  match value with
  | 0 => .ok .none
  | 8 => .ok .cVerUSA
  | 0x200 => .ok .dummy
  | 0x3AC0 => .ok .present
  | _ => .error (.ciaMetaInvalidSize value)

/-- `SMDHIcon::from_cia_meta`. -/
def SMDHIcon.from_cia_meta (file_data : ByteStream) : Except FileError SMDHIcon := do
  let s ← seekCurrent file_data 0x400
  SMDHIcon.from_smdh s

/-- The tail of `SMDHIcon::from_cia` after the meta-size field has been
checked to be `Present` (at which point the source rebinds `meta_size` to the
constant `0x3AC0`): reads the 8-byte content size, computes the 64-byte-padded
section sizes, and seeks to the meta section. The paddings are u32 (resp. u64
for the content size) multiplications, hence the explicit wrap-around. -/
def SMDHIcon.from_cia_content (certificate_chain_size ticket_size tmd_size : Nat)
    (s : ByteStream) : Except FileError SMDHIcon := do
  let (content_size_bytes, s) ← readExact s 8
  let content_size := leNat content_size_bytes
  let certificate_chain_size_with_padding := rustDivCeil certificate_chain_size 0x40 * 0x40 % 2 ^ 32
  let ticket_size_with_padding := rustDivCeil ticket_size 0x40 * 0x40 % 2 ^ 32
  let tmd_size_with_padding := rustDivCeil tmd_size 0x40 * 0x40 % 2 ^ 32
  let _meta_size_with_padding := rustDivCeil 0x3AC0 0x40 * 0x40 % 2 ^ 32
  let content_size_with_padding := rustDivCeil content_size 0x40 * 0x40 % 2 ^ 64
  let sections_offset := (certificate_chain_size_with_padding + ticket_size_with_padding +
    tmd_size_with_padding + content_size_with_padding) % 2 ^ 64
  let s := seekStart s ((0x2040 + sections_offset) % 2 ^ 64)
  SMDHIcon.from_cia_meta s

/-- `SMDHIcon::from_cia`. -/
def SMDHIcon.from_cia (file_data : ByteStream) : Except FileError SMDHIcon := do
  let s := seekStart file_data 0x08
  let (certificate_chain_size_bytes, s) ← readExact s 4
  let certificate_chain_size := leNat certificate_chain_size_bytes
  let (ticket_size_bytes, s) ← readExact s 4
  let ticket_size := leNat ticket_size_bytes
  let (tmd_size_bytes, s) ← readExact s 4
  let tmd_size := leNat tmd_size_bytes
  let (meta_size_bytes, s) ← readExact s 4
  let meta_size ← CIAMetaSize.try_from (leNat meta_size_bytes)
  match meta_size with
  | .present => SMDHIcon.from_cia_content certificate_chain_size ticket_size tmd_size s
  | k => throw (.ciaMetaNotExpectedValue k)

/-- `CCIPartition`: offset and length in bytes (scaled from media units). -/
structure CCIPartition where
  offset : Nat
  lengthBytes : Nat
deriving DecidableEq, Repr

/-- `CCIPartition::from_data`: 32-bit offset and length read off the stream,
each scaled ×512 from media units by a u32 multiplication (hence the
wrap-around modulo `2 ^ 32`). -/
def CCIPartition.from_data (file_data : ByteStream) :
    Except FileError (CCIPartition × ByteStream) := do
  let (offset_bytes, s) ← readExact file_data 4
  let offset := leNat offset_bytes * 0x200 % 2 ^ 32
  let (length_bytes, s) ← readExact s 4
  let length := leNat length_bytes * 0x200 % 2 ^ 32
  return (⟨offset, length⟩, s)

/-- A UTF-8 continuation byte (`0x80..=0xBF`). -/
def utf8Cont (b : Nat) : Bool :=
  decide (0x80 ≤ b) && decide (b ≤ 0xBF)

/-- Validity of a byte sequence as UTF-8, as checked by Rust's
`str::from_utf8` (RFC 3629: surrogates and values above U+10FFFF rejected,
shortest-form encodings only). -/
def utf8Valid : List Nat → Bool
  | [] => true
  | b :: rest =>
    if b ≤ 0x7F then utf8Valid rest
    else if 0xC2 ≤ b ∧ b ≤ 0xDF then
      match rest with
      | c1 :: rest2 => utf8Cont c1 && utf8Valid rest2
      | _ => false
    else if b = 0xE0 then
      match rest with
      | c1 :: c2 :: rest2 =>
        decide (0xA0 ≤ c1) && decide (c1 ≤ 0xBF) && utf8Cont c2 && utf8Valid rest2
      | _ => false
    else if 0xE1 ≤ b ∧ b ≤ 0xEC then
      match rest with
      | c1 :: c2 :: rest2 => utf8Cont c1 && utf8Cont c2 && utf8Valid rest2
      | _ => false
    else if b = 0xED then
      match rest with
      | c1 :: c2 :: rest2 =>
        decide (0x80 ≤ c1) && decide (c1 ≤ 0x9F) && utf8Cont c2 && utf8Valid rest2
      | _ => false
    else if 0xEE ≤ b ∧ b ≤ 0xEF then
      match rest with
      | c1 :: c2 :: rest2 => utf8Cont c1 && utf8Cont c2 && utf8Valid rest2
      | _ => false
    else if b = 0xF0 then
      match rest with
      | c1 :: c2 :: c3 :: rest2 =>
        decide (0x90 ≤ c1) && decide (c1 ≤ 0xBF) && utf8Cont c2 && utf8Cont c3 && utf8Valid rest2
      | _ => false
    else if 0xF1 ≤ b ∧ b ≤ 0xF3 then
      match rest with
      | c1 :: c2 :: c3 :: rest2 =>
        utf8Cont c1 && utf8Cont c2 && utf8Cont c3 && utf8Valid rest2
      | _ => false
    else if b = 0xF4 then
      match rest with
      | c1 :: c2 :: c3 :: rest2 =>
        decide (0x80 ≤ c1) && decide (c1 ≤ 0x8F) && utf8Cont c2 && utf8Cont c3 && utf8Valid rest2
      | _ => false
    else false

/-- `str::trim_matches(char::from(0))`: removes all leading and trailing
matching characters. NUL is a single-byte character in UTF-8, so on the byte
level this drops the zero bytes at both ends. -/
def trimZeroBytes (l : List Nat) : List Nat :=
  ((l.dropWhile (· = 0)).reverse.dropWhile (· = 0)).reverse

/-- `ExeFSFileHeader`: a decoded directory entry. The Rust `String` name is
represented by its byte sequence (Rust string equality is byte equality). -/
structure ExeFSFileHeader where
  file_name : List Nat
  file_offset : Nat
  file_size : Nat
deriving DecidableEq, Repr

/-- `ExeFSFileHeader::from_data`: one 16-byte directory slot. An all-zero
slot (the source checks `u128::from_ne_bytes == 0`, which holds iff every
byte is zero, iff the little-endian value is zero) yields no entry. -/
def ExeFSFileHeader.from_data (file_data : ByteStream) :
    Except FileError (Option ExeFSFileHeader × ByteStream) := do
  let (file_header, s) ← readExact file_data 16
  if leNat file_header = 0 then
    return (Option.none, s)
  if ¬ utf8Valid (file_header.take 0x8) then
    throw .exefsUtf8Error
  let file_name := trimZeroBytes (file_header.take 0x8)
  let file_offset := leNat (bytesAt file_header 0x8 4)
  let file_size := leNat (bytesAt file_header 0xC 4)
  return (some ⟨file_name, file_offset, file_size⟩, s)

/-- The `(0..10).map(...).collect::<Result<Vec<_>, _>>()` loop of
`from_exefs`: `n` sequential `ExeFSFileHeader::from_data` calls,
short-circuiting on the first error. -/
def readExeFSHeaders : Nat → ByteStream →
    Except FileError (List (Option ExeFSFileHeader) × ByteStream)
  | 0, s => .ok ([], s)
  | n + 1, s => do
    let (h, s) ← ExeFSFileHeader.from_data s
    let (rest, s) ← readExeFSHeaders n s
    return (h :: rest, s)

/-- The bytes of the ASCII string `"icon"`. -/
def iconNameBytes : List Nat := [105, 99, 111, 110]

/-- `SMDHIcon::from_exefs`. -/
def SMDHIcon.from_exefs (file_data : ByteStream) : Except FileError SMDHIcon := do
  let (file_headers_raw, s) ← readExeFSHeaders 10 file_data
  let file_headers := file_headers_raw.filterMap id
  match file_headers.find? (fun item => item.file_name == iconNameBytes) with
  | Option.none => throw .exefsIconFileNotFound
  | some icon_file =>
    let s ← seekCurrent s (0x200 + (icon_file.file_offset : Int) - 0xA0)
    SMDHIcon.from_smdh s

/-- The bytes of the ASCII signature `"NCCH"`. -/
def cxiMagicBytes : List Nat := [78, 67, 67, 72]

/-- `SMDHIcon::from_cxi`. -/
def SMDHIcon.from_cxi (file_data : ByteStream) : Except FileError SMDHIcon := do
  let s ← seekCurrent file_data 0x100
  let (cxi_magic, s) ← readExact s 4
  if cxiMagicBytes ≠ cxi_magic then
    throw .cxiMagicNotFound
  let s ← seekCurrent s (0x188 - 0x104)
  let (flags, s) ← readExact s 8
  let flags_index_7 := flags.getD 7 0
  let is_no_crypto := flags_index_7 &&& 0x4 == 0x4
  if ¬ is_no_crypto then
    throw .cxiFileEncrypted
  let s ← seekCurrent s (0x1A0 - 0x190)
  let (exefs_offset_bytes, s) ← readExact s 4
  let exefs_offset : Nat := leNat exefs_offset_bytes * 0x200 % 2 ^ 32
  let (exefs_size_bytes, s) ← readExact s 4
  let _exefs_size := leNat exefs_size_bytes * 0x200 % 2 ^ 32
  let s ← seekCurrent s ((exefs_offset : Int) - 0x1A8)
  SMDHIcon.from_exefs s

/-- The bytes of the ASCII signature `"NCSD"`. -/
def cciMagicBytes : List Nat := [78, 67, 83, 68]

/-- The `(0..8).map(...).collect::<Result<Vec<_>, _>>()` loop of `from_cci`:
`n` sequential `CCIPartition::from_data` calls, short-circuiting on the first
error. -/
def readPartitionTable : Nat → ByteStream →
    Except FileError (List CCIPartition × ByteStream)
  | 0, s => .ok ([], s)
  | n + 1, s => do
    let (p, s) ← CCIPartition.from_data s
    let (rest, s) ← readPartitionTable n s
    return (p :: rest, s)

/-- `SMDHIcon::from_cci`. -/
def SMDHIcon.from_cci (file_data : ByteStream) : Except FileError SMDHIcon := do
  let s := seekStart file_data 0x100
  let (cci_magic, s) ← readExact s 4
  if cciMagicBytes ≠ cci_magic then
    throw .cciMagicNotFound
  let s := seekStart s 0x120
  let (partition_table, s) ← readPartitionTable 8 s
  match partition_table.head? with
  | Option.none => throw .cciNoExecutableContentPartition
  | some first_partition =>
    let s := seekStart s first_partition.offset
    SMDHIcon.from_cxi s

/-! ## Step lemmas for the stream primitives -/

theorem readExact_ok {d : List Nat} {p n : Nat} (h : p + n ≤ d.length) :
    readExact ⟨d, p⟩ n = .ok (bytesAt d p n, ⟨d, p + n⟩) := by
  simp [readExact, h]

theorem readExact_error {d : List Nat} {p n : Nat} (h : d.length < p + n) :
    readExact ⟨d, p⟩ n = .error .ioFailure := by
  simp only [readExact]
  rw [if_neg (by omega)]

theorem seekCurrent_eq {d : List Nat} {p : Nat} {off : Int} {q : Nat}
    (h : (p : Int) + off = q) : seekCurrent ⟨d, p⟩ off = .ok ⟨d, q⟩ := by
  simp only [seekCurrent, h]
  rw [if_neg (by omega)]
  simp

theorem bytesAt_length {d : List Nat} {p n : Nat} (h : p + n ≤ d.length) :
    (bytesAt d p n).length = n := by
  simp [bytesAt]
  omega

theorem except_throw_eq {α : Type} {e : FileError} :
    (throw e : Except FileError α) = .error e := rfl

theorem except_pure_eq {α : Type} {a : α} : (pure a : Except FileError α) = .ok a := rfl

/-- Claim C3: the icon-metadata resolver reads exactly 4 bytes and fails with
`MagicMismatch` when they are not `"SMDH"`; when they are `"SMDH"` it seeks
forward by `0x24C0 - 4` bytes from just after the signature and reads exactly
4608 bytes as the raw icon buffer, failing with `IOFailure` when the stream is
too short to supply them. -/
theorem from_smdh_contract (d : List Nat) (p : Nat) :
    (p + 4 ≤ d.length → bytesAt d p 4 ≠ smdhMagicBytes →
      SMDHIcon.from_smdh ⟨d, p⟩ = .error .smdhMagicNotFound) ∧
    (bytesAt d p 4 = smdhMagicBytes →
      (d.length < p + 0x24C0 + 0x1200 → SMDHIcon.from_smdh ⟨d, p⟩ = .error .ioFailure) ∧
      (p + 0x24C0 + 0x1200 ≤ d.length →
        SMDHIcon.from_smdh ⟨d, p⟩ =
          .ok ⟨generate_pixbuf_from_bytes (bytesAt d (p + 0x24C0) 0x1200)⟩)) := by
  refine ⟨fun hlen hmag => ?_, fun hmag => ⟨fun hshort => ?_, fun hlong => ?_⟩⟩
  · simp only [SMDHIcon.from_smdh, readExact_ok hlen, Except.bind, bind]
    rw [if_pos (Ne.symm hmag)]
  · have hlen : p + 4 ≤ d.length := by
      by_contra hc
      have : (bytesAt d p 4).length < 4 := by simp [bytesAt]; omega
      rw [hmag] at this
      simp [smdhMagicBytes] at this
    simp only [SMDHIcon.from_smdh, readExact_ok hlen, Except.bind, bind]
    rw [if_neg (by rw [hmag]; exact fun h => h rfl)]
    rw [seekCurrent_eq (q := p + 0x24C0) (by push_cast; ring)]
    simp only [Except.bind]
    rw [readExact_error (by omega)]
    rfl
  · have hlen : p + 4 ≤ d.length := by omega
    simp only [SMDHIcon.from_smdh, readExact_ok hlen, Except.bind, bind]
    rw [if_neg (by rw [hmag]; exact fun h => h rfl)]
    rw [seekCurrent_eq (q := p + 0x24C0) (by push_cast; ring)]
    simp only [Except.bind]
    rw [readExact_ok (by omega)]
    rfl

/-- Witness for C3: on the stream `[0, 0, 0, 0]` at position 0, the 4 read
bytes are not `"SMDH"` and the resolver fails with the magic-mismatch error. -/
theorem from_smdh_contract_witness :
    SMDHIcon.from_smdh ⟨[0, 0, 0, 0], 0⟩ = .error .smdhMagicNotFound :=
  (from_smdh_contract [0, 0, 0, 0] 0).1 (by decide) (by decide)

/-- Length of a `flatMap` over `List.range` whose pieces all have length `L`. -/
theorem flatMap_range_length {α : Type} (f : Nat → List α) (L : Nat)
    (hL : ∀ x, (f x).length = L) : ∀ m, ((List.range m).flatMap f).length = m * L := by
  intro m
  induction m with
  | zero => simp
  | succ m ih =>
    rw [List.range_succ, List.flatMap_append, List.length_append, ih]
    simp only [List.flatMap_cons, List.flatMap_nil, List.append_nil, hL]
    ring

/-- Indexing a `flatMap` over `List.range` whose pieces all have length `L`. -/
theorem flatMap_range_getElem {α : Type} (f : Nat → List α) (L : Nat)
    (hL : ∀ x, (f x).length = L) :
    ∀ m i j, i < m → j < L → ((List.range m).flatMap f)[i * L + j]? = (f i)[j]? := by
  intro m
  induction m with
  | zero => intro i j hi _; omega
  | succ m ih =>
    intro i j hi hj
    rw [List.range_succ, List.flatMap_append, List.getElem?_append,
      flatMap_range_length f L hL m]
    rcases Nat.lt_or_ge i m with him | him
    · rw [if_pos (by calc i * L + j < i * L + L := by omega
        _ = (i + 1) * L := by ring
        _ ≤ m * L := Nat.mul_le_mul_right L him)]
      exact ih i j him hj
    · have hi' : i = m := by omega
      subst hi'
      rw [if_neg (by omega)]
      simp only [List.flatMap_cons, List.flatMap_nil, List.append_nil]
      congr 1
      omega

/-- Position `(tile_y * 6 + tile_x) * 64 + k` of the loop-order list holds the
index triple `(tile_y, tile_x, k)`. -/
theorem loopIndices_getElem (ty tx k : Nat) (hty : ty < 6) (htx : tx < 6) (hk : k < 64) :
    loopIndices[(ty * 6 + tx) * 64 + k]? = some (ty, tx, k) := by
  have harith : (ty * 6 + tx) * 64 + k = ty * 384 + (tx * 64 + k) := by ring
  have hinner : ∀ y : Nat, ((List.range 6).flatMap
      fun tx => (List.range 64).map fun k => ((y, tx, k) : Nat × Nat × Nat)).length = 384 := by
    intro y
    rw [flatMap_range_length _ 64 (fun x => by simp) 6]
  rw [loopIndices, harith,
    flatMap_range_getElem _ 384 hinner 6 ty (tx * 64 + k) hty (by omega),
    flatMap_range_getElem _ 64 (fun x => by simp) 6 tx k htx hk,
    List.getElem?_map, List.getElem?_range hk]
  rfl

/-- Sample `n` of the little-endian 16-bit split is built from bytes `2n` and
`2n + 1`. -/
theorem toSamples_getD (l : List Nat) (n : Nat) (h : 2 * n + 1 < l.length) :
    (toSamples l).getD n 0 = l.getD (2 * n) 0 + 256 * l.getD (2 * n + 1) 0 := by
  induction n generalizing l with
  | zero =>
    match l with
    | [] => simp at h
    | [b] => simp at h
    | b0 :: b1 :: rest => simp [toSamples]
  | succ n ih =>
    match l with
    | [] => simp at h
    | [b] => simp at h
    | b0 :: b1 :: rest =>
      have h2 : 2 * (n + 1) = 2 * n + 1 + 1 := by ring
      simp only [toSamples, h2, List.getD_cons_succ]
      exact ih rest (by simp at h ⊢; omega)

/-- Claim C2: for every 4608-byte buffer, the pixel decoder consumes the 2304
little-endian 16-bit samples in storage order under the nested loop
`tile_y 0..6`, `tile_x 0..6`, `k 0..64` (so the write at loop position
`(tile_y * 6 + tile_x) * 64 + k` decodes sample number
`(tile_y * 6 + tile_x) * 64 + k`, built from bytes `2·pos` and `2·pos + 1`),
writes it to pixel coordinate
`(table[k] & 7 + tile_x * 8, table[k] >> 3 + tile_y * 8)` with alpha 255, and
the table is exactly the stated 64-entry constant. -/
theorem generate_pixbuf_spec (bytes : List Nat) (hlen : bytes.length = 4608)
    (tile_y tile_x k : Nat) (hty : tile_y < 6) (htx : tile_x < 6) (hk : k < 64) :
    tile_order = [0, 1, 8, 9, 2, 3, 10, 11, 16, 17, 24, 25, 18, 19, 26, 27, 4, 5, 12, 13,
      6, 7, 14, 15, 20, 21, 28, 29, 22, 23, 30, 31, 32, 33, 40, 41, 34, 35, 42, 43, 48, 49,
      56, 57, 50, 51, 58, 59, 36, 37, 44, 45, 38, 39, 46, 47, 52, 53, 60, 61, 54, 55,
      62, 63] ∧
    (generate_pixbuf_from_bytes bytes)[(tile_y * 6 + tile_x) * 64 + k]? =
      some ⟨(tile_order.getD k 0 &&& 0x7) + tile_x * 8,
            (tile_order.getD k 0 >>> 3) + tile_y * 8,
            (Rgb565.ofU16 (bytes.getD (2 * ((tile_y * 6 + tile_x) * 64 + k)) 0 +
              256 * bytes.getD (2 * ((tile_y * 6 + tile_x) * 64 + k) + 1) 0)).r,
            (Rgb565.ofU16 (bytes.getD (2 * ((tile_y * 6 + tile_x) * 64 + k)) 0 +
              256 * bytes.getD (2 * ((tile_y * 6 + tile_x) * 64 + k) + 1) 0)).g,
            (Rgb565.ofU16 (bytes.getD (2 * ((tile_y * 6 + tile_x) * 64 + k)) 0 +
              256 * bytes.getD (2 * ((tile_y * 6 + tile_x) * 64 + k) + 1) 0)).b,
            0xFF⟩ := by
  refine ⟨rfl, ?_⟩
  simp only [generate_pixbuf_from_bytes]
  rw [List.getElem?_map, List.getElem?_enum, loopIndices_getElem tile_y tile_x k hty htx hk]
  simp only [Option.map_some']
  rw [toSamples_getD bytes _ (by omega)]

/-- Witness for C2: on the all-zero 4608-byte buffer, at `tile_y = 0`,
`tile_x = 0`, `k = 2`, the decoder's third write targets tile-local coordinate
`(0, 1)` (since `table[2] = 8`) with alpha 255. -/
theorem generate_pixbuf_spec_witness :
    (generate_pixbuf_from_bytes (List.replicate 4608 0))[2]? =
      some ⟨(tile_order.getD 2 0 &&& 0x7) + 0 * 8, (tile_order.getD 2 0 >>> 3) + 0 * 8,
        (Rgb565.ofU16 ((List.replicate 4608 0).getD 4 0 +
          256 * (List.replicate 4608 0).getD 5 0)).r,
        (Rgb565.ofU16 ((List.replicate 4608 0).getD 4 0 +
          256 * (List.replicate 4608 0).getD 5 0)).g,
        (Rgb565.ofU16 ((List.replicate 4608 0).getD 4 0 +
          256 * (List.replicate 4608 0).getD 5 0)).b,
        0xFF⟩ :=
  (generate_pixbuf_spec (List.replicate 4608 0) (List.length_replicate 4608 0) 0 0 2
    (by decide) (by decide) (by decide)).2

/-- Claim C5: on a stream whose 4 signature bytes are `"3DSX"` (and whose
16-bit header-size field is readable), a header size ≤ 32 fails with the
no-extended-header error carrying that size; a header size > 32 proceeds to
seek to absolute offset 0x20, read the 32-bit icon-metadata offset and the
32-bit size, and seek absolutely to that offset before delegating to the
icon-metadata resolver. -/
theorem from_n3dsx_contract (d : List Nat) (p : Nat)
    (hmag : bytesAt d p 4 = n3dsxMagicBytes) (hlen : p + 6 ≤ d.length) :
    (leNat (bytesAt d (p + 4) 2) ≤ 32 →
      SMDHIcon.from_n3dsx ⟨d, p⟩ =
        .error (.n3dsxNoExtendedHeader (leNat (bytesAt d (p + 4) 2)))) ∧
    (32 < leNat (bytesAt d (p + 4) 2) → 0x28 ≤ d.length →
      SMDHIcon.from_n3dsx ⟨d, p⟩ = SMDHIcon.from_smdh ⟨d, leNat (bytesAt d 0x20 4)⟩) := by
  constructor
  · intro hsize
    simp only [SMDHIcon.from_n3dsx, readExact_ok (show p + 4 ≤ d.length by omega),
      Except.bind, bind]
    rw [if_neg (by rw [hmag]; exact fun h => h rfl)]
    rw [readExact_ok (show p + 4 + 2 ≤ d.length by omega)]
    simp only [Except.bind]
    rw [if_pos (by omega)]
    rfl
  · intro hsize hlen2
    simp only [SMDHIcon.from_n3dsx, readExact_ok (show p + 4 ≤ d.length by omega),
      Except.bind, bind]
    rw [if_neg (by rw [hmag]; exact fun h => h rfl)]
    rw [readExact_ok (show p + 4 + 2 ≤ d.length by omega)]
    simp only [Except.bind]
    rw [if_neg (by omega)]
    simp only [seekStart]
    rw [readExact_ok (show 0x20 + 4 ≤ d.length by omega)]
    simp only [Except.bind]
    rw [readExact_ok (show 0x20 + 4 + 4 ≤ d.length by omega)]
    simp only [Except.bind]
    rfl

/-- Witness for C5: a `"3DSX"` stream with header-size field 32 fails with the
no-extended-header error carrying 32, and one with header-size 33 delegates to
the icon-metadata resolver at the offset read from absolute 0x20 (here 7). -/
theorem from_n3dsx_contract_witness :
    SMDHIcon.from_n3dsx ⟨[51, 68, 83, 88, 32, 0], 0⟩ =
        .error (.n3dsxNoExtendedHeader 32) ∧
    SMDHIcon.from_n3dsx ⟨[51, 68, 83, 88, 33, 0] ++ List.replicate 26 0 ++
        [7, 0, 0, 0, 0, 0, 0, 0], 0⟩ =
      SMDHIcon.from_smdh ⟨[51, 68, 83, 88, 33, 0] ++ List.replicate 26 0 ++
        [7, 0, 0, 0, 0, 0, 0, 0], 7⟩ := by
  constructor
  · exact (from_n3dsx_contract [51, 68, 83, 88, 32, 0] 0 (by decide) (by decide)).1
      (by decide)
  · have h := (from_n3dsx_contract ([51, 68, 83, 88, 33, 0] ++ List.replicate 26 0 ++
      [7, 0, 0, 0, 0, 0, 0, 0]) 0 (by decide) (by decide)).2 (by decide) (by decide)
    have hoff : leNat (bytesAt ([51, 68, 83, 88, 33, 0] ++ List.replicate 26 0 ++
      [7, 0, 0, 0, 0, 0, 0, 0]) 0x20 4) = 7 := by decide
    rw [hoff] at h
    exact h

/-- Running `from_cia` up to the meta-size check: the four 32-bit size fields
are read at absolute offsets 8, 12, 16 and 20, and the rest of the parse is
decided by `CIAMetaSize::try_from` on the trailing-metadata size field. -/
theorem from_cia_run (d : List Nat) (p : Nat) (hlen : 24 ≤ d.length) :
    SMDHIcon.from_cia ⟨d, p⟩ =
      Except.bind (CIAMetaSize.try_from (leNat (bytesAt d 20 4))) fun meta_size =>
        match meta_size with
        | .present => SMDHIcon.from_cia_content (leNat (bytesAt d 8 4))
            (leNat (bytesAt d 12 4)) (leNat (bytesAt d 16 4)) ⟨d, 24⟩
        | k => .error (.ciaMetaNotExpectedValue k) := by
  simp only [SMDHIcon.from_cia, seekStart,
    readExact_ok (show 8 + 4 ≤ d.length by omega), Except.bind, bind]
  rw [readExact_ok (show 12 + 4 ≤ d.length by omega)]
  simp only [Except.bind]
  rw [readExact_ok (show 16 + 4 ≤ d.length by omega)]
  simp only [Except.bind]
  rw [readExact_ok (show 20 + 4 ≤ d.length by omega)]
  simp only [Except.bind]
  rfl

/-- Claim C4: once the four 32-bit size fields are readable, the value of the
trailing-metadata size field decides the parse: 0x3AC0 lets it continue (with
the content-size read and the seek to the meta section); 0, 8 and 0x200 fail
with the unsupported-metadata-section error carrying the decoded kind (`None`,
`CVerUSA`, `Dummy` respectively); every other value fails with the
invalid-size error carrying the raw value. -/
theorem from_cia_meta_size_check (d : List Nat) (p : Nat) (hlen : 24 ≤ d.length) :
    (leNat (bytesAt d 20 4) = 0x3AC0 →
      SMDHIcon.from_cia ⟨d, p⟩ = SMDHIcon.from_cia_content (leNat (bytesAt d 8 4))
        (leNat (bytesAt d 12 4)) (leNat (bytesAt d 16 4)) ⟨d, 24⟩) ∧
    (leNat (bytesAt d 20 4) = 0 →
      SMDHIcon.from_cia ⟨d, p⟩ = .error (.ciaMetaNotExpectedValue .none)) ∧
    (leNat (bytesAt d 20 4) = 8 →
      SMDHIcon.from_cia ⟨d, p⟩ = .error (.ciaMetaNotExpectedValue .cVerUSA)) ∧
    (leNat (bytesAt d 20 4) = 0x200 →
      SMDHIcon.from_cia ⟨d, p⟩ = .error (.ciaMetaNotExpectedValue .dummy)) ∧
    (leNat (bytesAt d 20 4) ≠ 0 → leNat (bytesAt d 20 4) ≠ 8 →
      leNat (bytesAt d 20 4) ≠ 0x200 → leNat (bytesAt d 20 4) ≠ 0x3AC0 →
      SMDHIcon.from_cia ⟨d, p⟩ = .error (.ciaMetaInvalidSize (leNat (bytesAt d 20 4)))) := by
  refine ⟨fun hm => ?_, fun hm => ?_, fun hm => ?_, fun hm => ?_,
    fun h0 h8 h512 h3ac0 => ?_⟩
  · rw [from_cia_run d p hlen, hm]; rfl
  · rw [from_cia_run d p hlen, hm]; rfl
  · rw [from_cia_run d p hlen, hm]; rfl
  · rw [from_cia_run d p hlen, hm]; rfl
  · rw [from_cia_run d p hlen]
    have ht : CIAMetaSize.try_from (leNat (bytesAt d 20 4)) =
        .error (.ciaMetaInvalidSize (leNat (bytesAt d 20 4))) := by
      unfold CIAMetaSize.try_from
      split <;> simp_all
    rw [ht]
    rfl

/-- Witness for C4: with the size fields all readable, the meta-size values
0x3AC0, 0x200 and 1 respectively continue the parse, fail with the
`Dummy`-kind error, and fail with the invalid-size error carrying 1. -/
theorem from_cia_meta_size_check_witness :
    SMDHIcon.from_cia ⟨List.replicate 20 0 ++ [0xC0, 0x3A, 0, 0], 0⟩ =
      SMDHIcon.from_cia_content 0 0 0 ⟨List.replicate 20 0 ++ [0xC0, 0x3A, 0, 0], 24⟩ ∧
    SMDHIcon.from_cia ⟨List.replicate 20 0 ++ [0, 2, 0, 0], 0⟩ =
      .error (.ciaMetaNotExpectedValue .dummy) ∧
    SMDHIcon.from_cia ⟨List.replicate 20 0 ++ [1, 0, 0, 0], 0⟩ =
      .error (.ciaMetaInvalidSize 1) := by
  refine ⟨?_, ?_, ?_⟩
  · have h := (from_cia_meta_size_check (List.replicate 20 0 ++ [0xC0, 0x3A, 0, 0]) 0
      (by decide)).1 (by decide)
    simpa using h
  · exact (from_cia_meta_size_check (List.replicate 20 0 ++ [0, 2, 0, 0]) 0
      (by decide)).2.2.2.1 (by decide)
  · have h := (from_cia_meta_size_check (List.replicate 20 0 ++ [1, 0, 0, 0]) 0
      (by decide)).2.2.2.2 (by decide) (by decide) (by decide) (by decide)
    simpa using h

/-- Helper: the icon-metadata resolver fails with the magic-mismatch error
when the 4 readable signature bytes are not `"SMDH"`. -/
theorem from_smdh_mismatch (d : List Nat) (p : Nat) (hlen : p + 4 ≤ d.length)
    (hmag : bytesAt d p 4 ≠ smdhMagicBytes) :
    SMDHIcon.from_smdh ⟨d, p⟩ = .error .smdhMagicNotFound := by
  simp only [SMDHIcon.from_smdh, readExact_ok hlen, Except.bind, bind]
  rw [if_pos (Ne.symm hmag)]

/-- Helper: the icon-metadata resolver fails with an i/o error when not even
the 4 signature bytes are readable. -/
theorem from_smdh_short (d : List Nat) (p : Nat) (h : d.length < p + 4) :
    SMDHIcon.from_smdh ⟨d, p⟩ = .error .ioFailure := by
  simp only [SMDHIcon.from_smdh, readExact_error h, Except.bind, bind]

/-- Helper: `from_cia_meta` skips 0x400 bytes forward and delegates to
`from_smdh`. -/
theorem from_cia_meta_run (s : ByteStream) :
    SMDHIcon.from_cia_meta s = SMDHIcon.from_smdh ⟨s.data, s.pos + 0x400⟩ := by
  cases s with
  | mk d p =>
    have hseek : seekCurrent ⟨d, p⟩ (0x400 : Int) = .ok ⟨d, p + 0x400⟩ :=
      seekCurrent_eq (by push_cast; ring)
    simp only [SMDHIcon.from_cia_meta, hseek, Except.bind, bind]

/-- Helper: with a `Present` trailing-metadata size field, `from_cia` hands
the three leading size fields to the content stage. -/
theorem from_cia_present (d : List Nat) (p : Nat) (hlen : 24 ≤ d.length)
    (hmeta : leNat (bytesAt d 20 4) = 0x3AC0) :
    SMDHIcon.from_cia ⟨d, p⟩ = SMDHIcon.from_cia_content (leNat (bytesAt d 8 4))
      (leNat (bytesAt d 12 4)) (leNat (bytesAt d 16 4)) ⟨d, 24⟩ := by
  rw [from_cia_run d p hlen, hmeta]
  rfl

/-- Helper: the content stage reads the 8-byte content size at offset 24,
seeks to `(0x2040 + padded-section sum) mod 2^64` and delegates through the
meta stage (a further 0x400 forward) to `from_smdh`. -/
theorem from_cia_content_run (d : List Nat) (c t m : Nat) (hlen : 32 ≤ d.length) :
    SMDHIcon.from_cia_content c t m ⟨d, 24⟩ = SMDHIcon.from_smdh ⟨d,
      (0x2040 + (rustDivCeil c 0x40 * 0x40 % 2 ^ 32 + rustDivCeil t 0x40 * 0x40 % 2 ^ 32 +
        rustDivCeil m 0x40 * 0x40 % 2 ^ 32 +
        rustDivCeil (leNat (bytesAt d 24 8)) 0x40 * 0x40 % 2 ^ 64) % 2 ^ 64) % 2 ^ 64
      + 0x400⟩ := by
  simp only [SMDHIcon.from_cia_content, readExact_ok (show 24 + 8 ≤ d.length by omega),
    Except.bind, bind, seekStart]
  rw [from_cia_meta_run]

/-- Claim C1 (amended): with the four size fields readable, the
trailing-metadata size decoding to `Present` and the 8-byte content size
readable, `from_cia` seeks to absolute `0x2040` plus the sum of the
certificate-chain, ticket, content-metadata and content sizes each rounded up
to the next multiple of 64 — the roundings computed as u32 (resp. u64 for the
content size) multiplications, so reduced modulo `2^32` (resp. `2^64`), with
the sum reduced modulo `2^64` — the trailing-metadata size excluded from the
sum, and then skips forward exactly 0x400 bytes before delegating to the
icon-metadata resolver. -/
theorem from_cia_seek_sections (d : List Nat) (p : Nat) (hlen : 32 ≤ d.length)
    (hmeta : leNat (bytesAt d 20 4) = 0x3AC0) :
    SMDHIcon.from_cia ⟨d, p⟩ = SMDHIcon.from_smdh ⟨d,
      (0x2040 + (rustDivCeil (leNat (bytesAt d 8 4)) 0x40 * 0x40 % 2 ^ 32 +
        rustDivCeil (leNat (bytesAt d 12 4)) 0x40 * 0x40 % 2 ^ 32 +
        rustDivCeil (leNat (bytesAt d 16 4)) 0x40 * 0x40 % 2 ^ 32 +
        rustDivCeil (leNat (bytesAt d 24 8)) 0x40 * 0x40 % 2 ^ 64) % 2 ^ 64) % 2 ^ 64
      + 0x400⟩ := by
  rw [from_cia_present d p (by omega) hmeta, from_cia_content_run d _ _ _ hlen]

/-- Witness for C1 (amended): all leading sizes zero and content size zero,
meta-size field `Present`; the resolver delegates to the icon-metadata
resolver at `0x2040 + 0 + 0x400`. -/
theorem from_cia_seek_sections_witness :
    SMDHIcon.from_cia ⟨List.replicate 20 0 ++ [0xC0, 0x3A, 0, 0] ++ List.replicate 8 0, 0⟩ =
      SMDHIcon.from_smdh ⟨List.replicate 20 0 ++ [0xC0, 0x3A, 0, 0] ++ List.replicate 8 0,
        (0x2040 + (rustDivCeil (leNat (bytesAt (List.replicate 20 0 ++ [0xC0, 0x3A, 0, 0] ++
            List.replicate 8 0) 8 4)) 0x40 * 0x40 % 2 ^ 32 +
          rustDivCeil (leNat (bytesAt (List.replicate 20 0 ++ [0xC0, 0x3A, 0, 0] ++
            List.replicate 8 0) 12 4)) 0x40 * 0x40 % 2 ^ 32 +
          rustDivCeil (leNat (bytesAt (List.replicate 20 0 ++ [0xC0, 0x3A, 0, 0] ++
            List.replicate 8 0) 16 4)) 0x40 * 0x40 % 2 ^ 32 +
          rustDivCeil (leNat (bytesAt (List.replicate 20 0 ++ [0xC0, 0x3A, 0, 0] ++
            List.replicate 8 0) 24 8)) 0x40 * 0x40 % 2 ^ 64) % 2 ^ 64) % 2 ^ 64 + 0x400⟩ :=
  from_cia_seek_sections (List.replicate 20 0 ++ [0xC0, 0x3A, 0, 0] ++ List.replicate 8 0) 0
    (by decide) (by decide)

/-- A CIA-like stream refuting the unamended C1: the certificate-chain size
field holds `0xFFFFFFFF` (whose mathematical rounding to the next multiple of
64 is `0x100000000`), the other sizes are 0, and the trailing-metadata size
field holds the `Present` value `0x3AC0`. The data is long enough (`0x2444`
bytes) that the two candidate delegation positions behave differently. -/
def ciaOverflowData : List Nat :=
  [0, 0, 0, 0, 0, 0, 0, 0, 255, 255, 255, 255, 0, 0, 0, 0, 0, 0, 0, 0, 0xC0, 0x3A, 0, 0] ++
    List.replicate 9260 0

/-- Counterexample to C1 as stated: on `ciaOverflowData` the claim predicts
delegation to the icon-metadata resolver at
`0x2040 + 0x100000000 + 0x400` (mathematical 64-byte roundup of the
certificate-chain size `0xFFFFFFFF`), where reading fails with `IOFailure`;
the code's u32 padding computation wraps `0x100000000` to 0, so it actually
delegates at `0x2440`, where the magic check fails with `MagicMismatch`. -/
theorem from_cia_seek_counterexample :
    SMDHIcon.from_cia ⟨ciaOverflowData, 0⟩ ≠
      SMDHIcon.from_smdh ⟨ciaOverflowData, 0x2040 + 0x100000000 + 0x400⟩ ∧
    SMDHIcon.from_cia ⟨ciaOverflowData, 0⟩ = .error .smdhMagicNotFound ∧
    SMDHIcon.from_smdh ⟨ciaOverflowData, 0x2040 + 0x100000000 + 0x400⟩ =
      .error .ioFailure := by
  have hlen : ciaOverflowData.length = 9284 := by
    rw [ciaOverflowData, List.length_append, List.length_replicate]
    rfl
  have hmagic : bytesAt ciaOverflowData 0x2440 4 = [0, 0, 0, 0] := by
    have h24 : (9280 : Nat) = ([0, 0, 0, 0, 0, 0, 0, 0, 255, 255, 255, 255, 0, 0, 0, 0,
        0, 0, 0, 0, 0xC0, 0x3A, 0, 0] : List Nat).length + 9256 := by simp
    rw [bytesAt, ciaOverflowData, show (0x2440 : Nat) = 9280 from rfl, h24,
      List.drop_append 9256, List.drop_replicate, List.take_replicate]
    rfl
  have h1 : SMDHIcon.from_cia ⟨ciaOverflowData, 0⟩ = .error .smdhMagicNotFound := by
    have hc : leNat (bytesAt ciaOverflowData 8 4) = 0xFFFFFFFF := by decide
    have ht : leNat (bytesAt ciaOverflowData 12 4) = 0 := by decide
    have hm : leNat (bytesAt ciaOverflowData 16 4) = 0 := by decide
    have hmeta : leNat (bytesAt ciaOverflowData 20 4) = 0x3AC0 := by decide
    have hcontent : leNat (bytesAt ciaOverflowData 24 8) = 0 := by decide
    rw [from_cia_present ciaOverflowData 0 (by omega) hmeta,
      from_cia_content_run ciaOverflowData _ _ _ (by omega), hc, ht, hm, hcontent]
    have hX : (0x2040 + (rustDivCeil 0xFFFFFFFF 0x40 * 0x40 % 2 ^ 32 +
        rustDivCeil 0 0x40 * 0x40 % 2 ^ 32 + rustDivCeil 0 0x40 * 0x40 % 2 ^ 32 +
        rustDivCeil 0 0x40 * 0x40 % 2 ^ 64) % 2 ^ 64) % 2 ^ 64 + 0x400 = 0x2440 := by
      decide
    rw [hX]
    exact from_smdh_mismatch ciaOverflowData 0x2440 (by omega) (by rw [hmagic]; decide)
  have h2 : SMDHIcon.from_smdh ⟨ciaOverflowData, 0x2040 + 0x100000000 + 0x400⟩ =
      .error .ioFailure :=
    from_smdh_short ciaOverflowData _ (by omega)
  refine ⟨?_, h1, h2⟩
  rw [h1, h2]
  simp

/-- Helper: one partition entry read: 32-bit offset then 32-bit length, both
scaled ×512 as u32 multiplications. -/
theorem cciPartition_from_data_ok (d : List Nat) (q : Nat) (h : q + 8 ≤ d.length) :
    CCIPartition.from_data ⟨d, q⟩ = .ok (⟨leNat (bytesAt d q 4) * 0x200 % 2 ^ 32,
      leNat (bytesAt d (q + 4) 4) * 0x200 % 2 ^ 32⟩, ⟨d, q + 8⟩) := by
  simp only [CCIPartition.from_data, readExact_ok (show q + 4 ≤ d.length by omega),
    Except.bind, bind]
  rw [readExact_ok (show q + 4 + 4 ≤ d.length by omega)]
  simp only [Except.bind, except_pure_eq]

set_option maxRecDepth 4000 in
/-- Helper: `n` sequential partition reads succeed when `8 n` bytes are
available, producing the scaled entries in order. -/
theorem readPartitionTable_ok (d : List Nat) :
    ∀ n q, q + 8 * n ≤ d.length →
      readPartitionTable n ⟨d, q⟩ = .ok ((List.range n).map fun i =>
        (⟨leNat (bytesAt d (q + 8 * i) 4) * 0x200 % 2 ^ 32,
          leNat (bytesAt d (q + 8 * i + 4) 4) * 0x200 % 2 ^ 32⟩ : CCIPartition),
        ⟨d, q + 8 * n⟩) := by
  intro n
  induction n with
  | zero =>
    intro q h
    simp [readPartitionTable]
  | succ n ih =>
    intro q h
    have h1 := cciPartition_from_data_ok d q (by omega)
    simp only [readPartitionTable, h1, Except.bind, bind]
    rw [ih (q + 8) (by omega)]
    simp only [Except.bind, except_pure_eq, Except.ok.injEq, Prod.mk.injEq]
    refine ⟨?_, by rw [ByteStream.mk.injEq]; exact ⟨rfl, by ring⟩⟩
    rw [List.range_succ_eq_map, List.map_cons, List.map_map]
    refine List.cons_eq_cons.mpr ⟨by norm_num, List.map_congr_left ?_⟩
    intro i _
    have e1 : q + 8 + 8 * i = q + 8 * (i + 1) := by ring
    have e2 : q + 8 + 8 * i + 4 = q + 8 * (i + 1) + 4 := by ring
    simp only [Function.comp_apply, e1, e2]

/-- Claim C7: on a stream whose bytes at absolute 0x100 are `"NCSD"` (and
that is at least 0x160 bytes long), the cartridge-image resolver reads exactly
8 partition entries starting at absolute 0x120 — each a 32-bit offset and a
32-bit length, both scaled ×512 (a u32 multiplication) from stored media
units — and seeks to the first entry's scaled byte offset before delegating to
the executable-container resolver. -/
theorem from_cci_contract (d : List Nat) (p : Nat)
    (hmag : bytesAt d 0x100 4 = cciMagicBytes) (hlen : 0x160 ≤ d.length) :
    readPartitionTable 8 ⟨d, 0x120⟩ = .ok ((List.range 8).map fun i =>
      (⟨leNat (bytesAt d (0x120 + 8 * i) 4) * 0x200 % 2 ^ 32,
        leNat (bytesAt d (0x120 + 8 * i + 4) 4) * 0x200 % 2 ^ 32⟩ : CCIPartition),
      ⟨d, 0x160⟩) ∧
    SMDHIcon.from_cci ⟨d, p⟩ =
      SMDHIcon.from_cxi ⟨d, leNat (bytesAt d 0x120 4) * 0x200 % 2 ^ 32⟩ := by
  have htable := readPartitionTable_ok d 8 0x120 (by omega)
  constructor
  · exact htable
  · simp only [SMDHIcon.from_cci, seekStart,
      readExact_ok (show 0x100 + 4 ≤ d.length by omega), Except.bind, bind]
    rw [if_neg (by rw [hmag]; exact fun h => h rfl)]
    rw [htable]
    simp only [Except.bind]
    rw [show List.range 8 = 0 :: [1, 2, 3, 4, 5, 6, 7] from rfl, List.map_cons,
      List.head?_cons]
    norm_num
    rfl

set_option maxRecDepth 8000 in
/-- Witness for C7: 8 synthetic partition entries whose first entry's stored
offset unit is 10; the resolver seeks to absolute byte 5120 before delegating
to the executable-container resolver. -/
theorem from_cci_contract_witness :
    SMDHIcon.from_cci ⟨List.replicate 0x100 0 ++ [78, 67, 83, 68] ++ List.replicate 0x1C 0 ++
        [10, 0, 0, 0] ++ List.replicate 0x3C 0, 0⟩ =
      SMDHIcon.from_cxi ⟨List.replicate 0x100 0 ++ [78, 67, 83, 68] ++ List.replicate 0x1C 0 ++
        [10, 0, 0, 0] ++ List.replicate 0x3C 0, 5120⟩ := by
  have h := (from_cci_contract (List.replicate 0x100 0 ++ [78, 67, 83, 68] ++
    List.replicate 0x1C 0 ++ [10, 0, 0, 0] ++ List.replicate 0x3C 0) 0
    (by decide) (by decide)).2
  have hoff : leNat (bytesAt (List.replicate 0x100 0 ++ [78, 67, 83, 68] ++
      List.replicate 0x1C 0 ++ [10, 0, 0, 0] ++ List.replicate 0x3C 0) 0x120 4) *
      0x200 % 2 ^ 32 = 5120 := by decide
  rw [hoff] at h
  exact h

/-- Helper: a failing relative seek only ever reports an i/o failure. -/
theorem seekCurrent_error_cases (s : ByteStream) (off : Int) (e : FileError)
    (h : seekCurrent s off = .error e) : e = .ioFailure := by
  simp only [seekCurrent] at h
  split at h
  · injection h with h'
    exact h'.symm
  · cases h

/-- Helper: with the magic matched but the stream too short for the icon
buffer, the icon-metadata resolver fails with an i/o failure. -/
theorem from_smdh_eof (d : List Nat) (p : Nat) (hmag : bytesAt d p 4 = smdhMagicBytes)
    (hshort : d.length < p + 0x24C0 + 0x1200) :
    SMDHIcon.from_smdh ⟨d, p⟩ = .error .ioFailure := by
  have hlen : p + 4 ≤ d.length := by
    by_contra hc
    have : (bytesAt d p 4).length < 4 := by simp [bytesAt]; omega
    rw [hmag] at this
    simp [smdhMagicBytes] at this
  simp only [SMDHIcon.from_smdh, readExact_ok hlen, Except.bind, bind]
  rw [if_neg (by rw [hmag]; exact fun h => h rfl)]
  rw [seekCurrent_eq (q := p + 0x24C0) (by push_cast; ring)]
  simp only [Except.bind]
  rw [readExact_error (by omega)]
  rfl

/-- Helper: with the magic matched and the stream long enough, the
icon-metadata resolver returns the icon decoded from the 4608 bytes at
`p + 0x24C0`. -/
theorem from_smdh_ok (d : List Nat) (p : Nat) (hmag : bytesAt d p 4 = smdhMagicBytes)
    (hlong : p + 0x24C0 + 0x1200 ≤ d.length) :
    SMDHIcon.from_smdh ⟨d, p⟩ =
      .ok ⟨generate_pixbuf_from_bytes (bytesAt d (p + 0x24C0) 0x1200)⟩ := by
  simp only [SMDHIcon.from_smdh, readExact_ok (show p + 4 ≤ d.length by omega),
    Except.bind, bind]
  rw [if_neg (by rw [hmag]; exact fun h => h rfl)]
  rw [seekCurrent_eq (q := p + 0x24C0) (by push_cast; ring)]
  simp only [Except.bind]
  rw [readExact_ok (by omega)]
  rfl

/-- Helper: the icon-metadata resolver only ever fails with an i/o failure or
the `"SMDH"` magic mismatch. -/
theorem from_smdh_error_cases (s : ByteStream) (e : FileError)
    (h : SMDHIcon.from_smdh s = .error e) :
    e = .ioFailure ∨ e = .smdhMagicNotFound := by
  cases s with
  | mk d p =>
    rcases Nat.lt_or_ge d.length (p + 4) with hl | hl
    · rw [from_smdh_short d p hl] at h
      injection h with h2
      exact Or.inl h2.symm
    · by_cases hm : bytesAt d p 4 = smdhMagicBytes
      · rcases Nat.lt_or_ge d.length (p + 0x24C0 + 0x1200) with hs | hs
        · rw [from_smdh_eof d p hm hs] at h
          injection h with h2
          exact Or.inl h2.symm
        · rw [from_smdh_ok d p hm hs] at h
          cases h
      · rw [from_smdh_mismatch d p hl hm] at h
        injection h with h2
        exact Or.inr h2.symm

/-- Helper: the little-endian value of a byte list is zero iff every byte is
zero (this is the `u128::from_ne_bytes == 0` emptiness test of the source). -/
theorem leNat_eq_zero (l : List Nat) : leNat l = 0 ↔ ∀ b ∈ l, b = 0 := by
  induction l with
  | nil => simp [leNat]
  | cons b rest ih =>
    simp only [leNat, List.mem_cons]
    constructor
    · intro h
      have hb : b = 0 := by omega
      have hr : leNat rest = 0 := by omega
      intro x hx
      rcases hx with hx | hx
      · rw [hx, hb]
      · exact ih.mp hr x hx
    · intro h
      have hb : b = 0 := h b (Or.inl rfl)
      have hr : leNat rest = 0 := ih.mpr fun x hx => h x (Or.inr hx)
      omega

/-- Helper: a sub-slice of a slice is a slice of the original. -/
theorem bytesAt_bytesAt (d : List Nat) (q m a n : Nat) (h : a + n ≤ m) :
    bytesAt (bytesAt d q m) a n = bytesAt d (q + a) n := by
  simp only [bytesAt, List.drop_take, List.drop_drop, List.take_take]
  rw [show q + a = a + q from by ring, Nat.min_eq_left (by omega)]

/-- Helper: the leading slice of a slice. -/
theorem bytesAt_take (d : List Nat) (q m n : Nat) (h : n ≤ m) :
    (bytesAt d q m).take n = bytesAt d q n := by
  simp only [bytesAt, List.take_take]
  rw [Nat.min_eq_left h]

/-- Helper: an all-zero 16-byte directory slot decodes to no entry. -/
theorem exefs_from_data_zero (d : List Nat) (q : Nat) (hlen : q + 16 ≤ d.length)
    (hz : bytesAt d q 16 = List.replicate 16 0) :
    ExeFSFileHeader.from_data ⟨d, q⟩ = .ok (Option.none, ⟨d, q + 16⟩) := by
  simp only [ExeFSFileHeader.from_data, readExact_ok hlen, Except.bind, bind]
  rw [if_pos (by rw [hz]; decide)]
  rfl

/-- Helper: a non-zero slot whose first 8 bytes are not valid UTF-8 fails with
the invalid-name-encoding error. -/
theorem exefs_from_data_invalid (d : List Nat) (q : Nat) (hlen : q + 16 ≤ d.length)
    (hnz : bytesAt d q 16 ≠ List.replicate 16 0)
    (hbad : utf8Valid (bytesAt d q 8) = false) :
    ExeFSFileHeader.from_data ⟨d, q⟩ = .error .exefsUtf8Error := by
  have hlen16 : (bytesAt d q 16).length = 16 := bytesAt_length (by omega)
  simp only [ExeFSFileHeader.from_data, readExact_ok hlen, Except.bind, bind]
  rw [if_neg (by
    rw [leNat_eq_zero]
    intro hall
    exact hnz (List.eq_replicate_iff.mpr ⟨hlen16, hall⟩))]
  rw [if_pos (by rw [bytesAt_take d q 16 8 (by omega), hbad]; decide)]
  rfl

/-- Helper: a non-zero slot with a valid-UTF-8 name decodes to an entry whose
name is the first 8 bytes with zero bytes trimmed from both ends and whose
offset and size are the following two little-endian 32-bit fields. -/
theorem exefs_from_data_valid (d : List Nat) (q : Nat) (hlen : q + 16 ≤ d.length)
    (hnz : bytesAt d q 16 ≠ List.replicate 16 0)
    (hok : utf8Valid (bytesAt d q 8) = true) :
    ExeFSFileHeader.from_data ⟨d, q⟩ = .ok (some ⟨trimZeroBytes (bytesAt d q 8),
      leNat (bytesAt d (q + 8) 4), leNat (bytesAt d (q + 12) 4)⟩, ⟨d, q + 16⟩) := by
  have hlen16 : (bytesAt d q 16).length = 16 := bytesAt_length (by omega)
  simp only [ExeFSFileHeader.from_data, readExact_ok hlen, Except.bind, bind]
  rw [if_neg (by
    rw [leNat_eq_zero]
    intro hall
    exact hnz (List.eq_replicate_iff.mpr ⟨hlen16, hall⟩))]
  rw [if_neg (by rw [bytesAt_take d q 16 8 (by omega), hok]; exact fun h => h rfl)]
  rw [bytesAt_take d q 16 8 (by omega),
    bytesAt_bytesAt d q 16 0x8 4 (by omega), bytesAt_bytesAt d q 16 0xC 4 (by omega)]
  rfl

/-- Helper: a directory-slot read only ever fails with an i/o failure or the
invalid-name-encoding error. -/
theorem exefs_from_data_error_cases (s : ByteStream) (e : FileError)
    (h : ExeFSFileHeader.from_data s = .error e) :
    e = .ioFailure ∨ e = .exefsUtf8Error := by
  cases s with
  | mk d q =>
    rcases Nat.lt_or_ge d.length (q + 16) with hl | hl
    · have hshort : ExeFSFileHeader.from_data ⟨d, q⟩ = .error .ioFailure := by
        simp only [ExeFSFileHeader.from_data, readExact_error hl, Except.bind, bind]
      rw [hshort] at h
      injection h with h2
      exact Or.inl h2.symm
    · by_cases hz : bytesAt d q 16 = List.replicate 16 0
      · rw [exefs_from_data_zero d q hl hz] at h
        cases h
      · rcases Bool.eq_false_or_eq_true (utf8Valid (bytesAt d q 8)) with hu | hu
        · rw [exefs_from_data_valid d q hl hz hu] at h
          cases h
        · rw [exefs_from_data_invalid d q hl hz hu] at h
          injection h with h2
          exact Or.inr h2.symm

/-- Helper: a successful directory-slot read advances the stream by exactly
16 bytes. -/
theorem exefs_from_data_ok_state (s : ByteStream) (v : Option ExeFSFileHeader)
    (s' : ByteStream) (h : ExeFSFileHeader.from_data s = .ok (v, s')) :
    s' = ⟨s.data, s.pos + 16⟩ := by
  cases s with
  | mk d q =>
    rcases Nat.lt_or_ge d.length (q + 16) with hl | hl
    · have hshort : ExeFSFileHeader.from_data ⟨d, q⟩ = .error .ioFailure := by
        simp only [ExeFSFileHeader.from_data, readExact_error hl, Except.bind, bind]
      rw [hshort] at h
      cases h
    · by_cases hz : bytesAt d q 16 = List.replicate 16 0
      · rw [exefs_from_data_zero d q hl hz] at h
        injection h with h2
        exact (congrArg Prod.snd h2).symm
      · rcases Bool.eq_false_or_eq_true (utf8Valid (bytesAt d q 8)) with hu | hu
        · rw [exefs_from_data_valid d q hl hz hu] at h
          injection h with h2
          exact (congrArg Prod.snd h2).symm
        · rw [exefs_from_data_invalid d q hl hz hu] at h
          cases h

/-- Helper: the directory-table loop only ever fails with an i/o failure or
the invalid-name-encoding error. -/
theorem readExeFSHeaders_error_cases :
    ∀ (n : Nat) (s : ByteStream) (e : FileError), readExeFSHeaders n s = .error e →
      e = .ioFailure ∨ e = .exefsUtf8Error := by
  intro n
  induction n with
  | zero =>
    intro s e h
    cases h
  | succ n ih =>
    intro s e h
    simp only [readExeFSHeaders, Except.bind, bind] at h
    cases hfd : ExeFSFileHeader.from_data s with
    | error e' =>
      rw [hfd] at h
      injection h with h2
      exact h2 ▸ exefs_from_data_error_cases s e' hfd
    | ok v =>
      rw [hfd] at h
      dsimp only at h
      cases hr : readExeFSHeaders n v.2 with
      | error e2 =>
        rw [hr] at h
        injection h with h2
        exact h2 ▸ ih v.2 e2 hr
      | ok w =>
        rw [hr] at h
        cases h

/-- Helper: a successful directory-table read of `n` slots advances the
stream by exactly `16 n` bytes and yields `n` slots. -/
theorem readExeFSHeaders_ok_state :
    ∀ (n : Nat) (s : ByteStream) (hs : List (Option ExeFSFileHeader)) (s' : ByteStream),
      readExeFSHeaders n s = .ok (hs, s') →
        s' = ⟨s.data, s.pos + 16 * n⟩ ∧ hs.length = n := by
  intro n
  induction n with
  | zero =>
    intro s hs s' h
    simp only [readExeFSHeaders] at h
    injection h with h2
    obtain ⟨rfl, rfl⟩ := Prod.mk.inj h2
    exact ⟨by cases s; simp, rfl⟩
  | succ n ih =>
    intro s hs s' h
    simp only [readExeFSHeaders, Except.bind, bind] at h
    cases hfd : ExeFSFileHeader.from_data s with
    | error e' =>
      rw [hfd] at h
      cases h
    | ok v =>
      obtain ⟨hv, sv⟩ := v
      rw [hfd] at h
      dsimp only at h
      cases hr : readExeFSHeaders n sv with
      | error e2 =>
        rw [hr] at h
        cases h
      | ok w =>
        obtain ⟨ws, wstate⟩ := w
        rw [hr] at h
        dsimp only at h
        injection h with h2
        obtain ⟨rfl, rfl⟩ := Prod.mk.inj h2
        have hstate := exefs_from_data_ok_state s hv sv hfd
        subst hstate
        obtain ⟨hw1, hw2⟩ := ih _ ws wstate hr
        refine ⟨?_, by simp [hw2]⟩
        rw [hw1]
        rw [ByteStream.mk.injEq]
        exact ⟨rfl, by dsimp only; ring⟩

/-- Helper: when the 10-slot table reads successfully but no decoded entry is
named `"icon"`, the embedded-filesystem resolver fails with the
icon-entry-not-found error. -/
theorem from_exefs_not_found (d : List Nat) (q : Nat)
    (hs : List (Option ExeFSFileHeader)) (s₂ : ByteStream)
    (hread : readExeFSHeaders 10 ⟨d, q⟩ = .ok (hs, s₂))
    (hfind : (hs.filterMap id).find? (fun item => item.file_name == iconNameBytes) =
      Option.none) :
    SMDHIcon.from_exefs ⟨d, q⟩ = .error .exefsIconFileNotFound := by
  simp only [SMDHIcon.from_exefs, hread, Except.bind, bind, hfind]
  rfl

/-- Helper: when the 10-slot table reads successfully and an entry named
`"icon"` is found, the embedded-filesystem resolver seeks forward by
`0x200 + offset - 0xA0` from the position just after the table (`q + 0xA0`)
and delegates to the icon-metadata resolver. -/
theorem from_exefs_found (d : List Nat) (q : Nat)
    (hs : List (Option ExeFSFileHeader)) (s₂ : ByteStream) (hdr : ExeFSFileHeader)
    (hread : readExeFSHeaders 10 ⟨d, q⟩ = .ok (hs, s₂))
    (hfind : (hs.filterMap id).find? (fun item => item.file_name == iconNameBytes) =
      some hdr) :
    SMDHIcon.from_exefs ⟨d, q⟩ =
      SMDHIcon.from_smdh ⟨d, q + 0xA0 + (0x200 + hdr.file_offset - 0xA0)⟩ := by
  have hstate := (readExeFSHeaders_ok_state 10 ⟨d, q⟩ hs s₂ hread).1
  subst hstate
  simp only [SMDHIcon.from_exefs, hread, Except.bind, bind, hfind]
  rw [seekCurrent_eq (q := q + 0xA0 + (0x200 + hdr.file_offset - 0xA0)) (by push_cast; omega)]

/-- Helper: the embedded-filesystem resolver never reports the
encrypted-content error. -/
theorem from_exefs_ne_encrypted (s : ByteStream) :
    SMDHIcon.from_exefs s ≠ .error .cxiFileEncrypted := by
  intro h
  cases s with
  | mk d q =>
    cases hr : readExeFSHeaders 10 ⟨d, q⟩ with
    | error e =>
      simp only [SMDHIcon.from_exefs, hr, Except.bind, bind] at h
      injection h with h2
      rcases readExeFSHeaders_error_cases 10 ⟨d, q⟩ e hr with h3 | h3 <;> simp [h3] at h2
    | ok v =>
      obtain ⟨hsl, s₂⟩ := v
      cases hf : (hsl.filterMap id).find? (fun item => item.file_name == iconNameBytes) with
      | none =>
        rw [from_exefs_not_found d q hsl s₂ hr hf] at h
        injection h with h2
        cases h2
      | some hdr =>
        rw [from_exefs_found d q hsl s₂ hdr hr hf] at h
        rcases from_smdh_error_cases _ _ h with h3 | h3 <;> cases h3

/-- Helper: with the `"NCCH"` magic matched and the flags field readable, a
cleared no-crypto bit (bit 0x4 of flags byte 7) makes the
executable-container resolver fail with the encrypted-content error. -/
theorem from_cxi_encrypted (d : List Nat) (p : Nat)
    (hmag : bytesAt d (p + 0x100) 4 = cxiMagicBytes) (hlen : p + 0x190 ≤ d.length)
    (hbit : (bytesAt d (p + 0x188) 8).getD 7 0 &&& 0x4 ≠ 0x4) :
    SMDHIcon.from_cxi ⟨d, p⟩ = .error .cxiFileEncrypted := by
  have hs1 : seekCurrent ⟨d, p⟩ (0x100 : Int) = .ok ⟨d, p + 0x100⟩ :=
    seekCurrent_eq (by push_cast; ring)
  simp only [SMDHIcon.from_cxi, hs1, Except.bind, bind]
  rw [readExact_ok (show p + 0x100 + 4 ≤ d.length by omega)]
  simp only [Except.bind]
  rw [if_neg (by rw [hmag]; exact fun h => h rfl)]
  have hs2 : seekCurrent ⟨d, p + 0x100 + 4⟩ (0x188 - 0x104 : Int) = .ok ⟨d, p + 0x188⟩ :=
    seekCurrent_eq (by push_cast; ring)
  rw [hs2]
  simp only [Except.bind]
  rw [readExact_ok (show p + 0x188 + 8 ≤ d.length by omega)]
  simp only [Except.bind]
  rw [if_pos (by simpa using hbit)]
  rfl

/-- Helper: with the `"NCCH"` magic matched, the no-crypto bit set and the
filesystem-pointer fields readable, the executable-container resolver seeks
forward by `(filesystem offset in bytes) - 0x1A8` — landing at entry position
plus the u32-scaled offset — and delegates to the embedded-filesystem
resolver. -/
theorem from_cxi_delegate (d : List Nat) (p : Nat)
    (hmag : bytesAt d (p + 0x100) 4 = cxiMagicBytes) (hlen : p + 0x190 ≤ d.length)
    (hbit : (bytesAt d (p + 0x188) 8).getD 7 0 &&& 0x4 = 0x4)
    (hlen2 : p + 0x1A8 ≤ d.length) :
    SMDHIcon.from_cxi ⟨d, p⟩ =
      SMDHIcon.from_exefs ⟨d, p + leNat (bytesAt d (p + 0x1A0) 4) * 0x200 % 2 ^ 32⟩ := by
  have hs1 : seekCurrent ⟨d, p⟩ (0x100 : Int) = .ok ⟨d, p + 0x100⟩ :=
    seekCurrent_eq (by push_cast; ring)
  simp only [SMDHIcon.from_cxi, hs1, Except.bind, bind]
  rw [readExact_ok (show p + 0x100 + 4 ≤ d.length by omega)]
  simp only [Except.bind]
  rw [if_neg (by rw [hmag]; exact fun h => h rfl)]
  have hs2 : seekCurrent ⟨d, p + 0x100 + 4⟩ (0x188 - 0x104 : Int) = .ok ⟨d, p + 0x188⟩ :=
    seekCurrent_eq (by push_cast; ring)
  rw [hs2]
  simp only [Except.bind]
  rw [readExact_ok (show p + 0x188 + 8 ≤ d.length by omega)]
  simp only [Except.bind]
  rw [if_neg (fun hc => hc (beq_iff_eq.mpr hbit))]
  have hs3 : seekCurrent ⟨d, p + 0x188 + 8⟩ (0x1A0 - 0x190 : Int) = .ok ⟨d, p + 0x1A0⟩ :=
    seekCurrent_eq (by push_cast; ring)
  rw [hs3]
  simp only [Except.bind]
  rw [readExact_ok (show p + 0x1A0 + 4 ≤ d.length by omega)]
  simp only [Except.bind]
  rw [readExact_ok (show p + 0x1A0 + 4 + 4 ≤ d.length by omega)]
  simp only [Except.bind]
  rw [seekCurrent_eq (q := p + leNat (bytesAt d (p + 0x1A0) 4) * 0x200 % 2 ^ 32)
    (by push_cast; omega)]
  rfl

/-- Helper: with the magic matched and the no-crypto bit set but the stream
too short for the filesystem-pointer fields, the executable-container
resolver fails with an i/o failure. -/
theorem from_cxi_bitset_eof (d : List Nat) (p : Nat)
    (hmag : bytesAt d (p + 0x100) 4 = cxiMagicBytes) (hlen : p + 0x190 ≤ d.length)
    (hbit : (bytesAt d (p + 0x188) 8).getD 7 0 &&& 0x4 = 0x4)
    (hshort : d.length < p + 0x1A8) :
    SMDHIcon.from_cxi ⟨d, p⟩ = .error .ioFailure := by
  have hs1 : seekCurrent ⟨d, p⟩ (0x100 : Int) = .ok ⟨d, p + 0x100⟩ :=
    seekCurrent_eq (by push_cast; ring)
  simp only [SMDHIcon.from_cxi, hs1, Except.bind, bind]
  rw [readExact_ok (show p + 0x100 + 4 ≤ d.length by omega)]
  simp only [Except.bind]
  rw [if_neg (by rw [hmag]; exact fun h => h rfl)]
  have hs2 : seekCurrent ⟨d, p + 0x100 + 4⟩ (0x188 - 0x104 : Int) = .ok ⟨d, p + 0x188⟩ :=
    seekCurrent_eq (by push_cast; ring)
  rw [hs2]
  simp only [Except.bind]
  rw [readExact_ok (show p + 0x188 + 8 ≤ d.length by omega)]
  simp only [Except.bind]
  rw [if_neg (fun hc => hc (beq_iff_eq.mpr hbit))]
  have hs3 : seekCurrent ⟨d, p + 0x188 + 8⟩ (0x1A0 - 0x190 : Int) = .ok ⟨d, p + 0x1A0⟩ :=
    seekCurrent_eq (by push_cast; ring)
  rw [hs3]
  simp only [Except.bind]
  rcases Nat.lt_or_ge d.length (p + 0x1A0 + 4) with hl | hl
  · rw [readExact_error hl]
    rfl
  · rw [readExact_ok hl]
    simp only [Except.bind]
    rw [readExact_error (by omega)]
    rfl

/-- Claim C6: once the executable-container resolver has matched the
`"NCCH"` signature and can read the 8-byte flags field at relative offset
0x188, it fails with the encrypted-content error exactly when bit 0x4 of
flags byte index 7 is unset; when that bit is set (and the filesystem-pointer
fields are readable) it reads the filesystem offset at relative offset 0x1A0
and seeks forward by `(filesystem offset in bytes) - 0x1A8` before delegating
to the embedded-filesystem resolver. -/
theorem from_cxi_contract (d : List Nat) (p : Nat)
    (hmag : bytesAt d (p + 0x100) 4 = cxiMagicBytes) (hlen : p + 0x190 ≤ d.length) :
    (SMDHIcon.from_cxi ⟨d, p⟩ = .error .cxiFileEncrypted ↔
      (bytesAt d (p + 0x188) 8).getD 7 0 &&& 0x4 ≠ 0x4) ∧
    ((bytesAt d (p + 0x188) 8).getD 7 0 &&& 0x4 = 0x4 → p + 0x1A8 ≤ d.length →
      SMDHIcon.from_cxi ⟨d, p⟩ =
        SMDHIcon.from_exefs ⟨d, p + leNat (bytesAt d (p + 0x1A0) 4) * 0x200 % 2 ^ 32⟩) := by
  constructor
  · constructor
    · intro h
      by_contra hbit
      rcases Nat.lt_or_ge d.length (p + 0x1A8) with hl | hl
      · rw [from_cxi_bitset_eof d p hmag hlen hbit hl] at h
        cases h
      · rw [from_cxi_delegate d p hmag hlen hbit hl] at h
        exact from_exefs_ne_encrypted _ h
    · exact from_cxi_encrypted d p hmag hlen
  · exact from_cxi_delegate d p hmag hlen

set_option maxRecDepth 8000 in
/-- Witness for C6: a stream with `"NCCH"` at 0x100, flags byte 7 equal to 4
and filesystem offset 1 media unit delegates to the embedded-filesystem
resolver at byte 512; a stream with flags byte 7 equal to 0 fails with the
encrypted-content error. -/
theorem from_cxi_contract_witness :
    SMDHIcon.from_cxi ⟨List.replicate 0x100 0 ++ [78, 67, 67, 72] ++
        List.replicate 0x84 0 ++ List.replicate 7 0 ++ [4] ++ List.replicate 0x10 0 ++
        [1, 0, 0, 0] ++ [0, 0, 0, 0], 0⟩ =
      SMDHIcon.from_exefs ⟨List.replicate 0x100 0 ++ [78, 67, 67, 72] ++
        List.replicate 0x84 0 ++ List.replicate 7 0 ++ [4] ++ List.replicate 0x10 0 ++
        [1, 0, 0, 0] ++ [0, 0, 0, 0], 512⟩ ∧
    SMDHIcon.from_cxi ⟨List.replicate 0x100 0 ++ [78, 67, 67, 72] ++
        List.replicate 0x8C 0, 0⟩ = .error .cxiFileEncrypted := by
  constructor
  · have h := (from_cxi_contract (List.replicate 0x100 0 ++ [78, 67, 67, 72] ++
      List.replicate 0x84 0 ++ List.replicate 7 0 ++ [4] ++ List.replicate 0x10 0 ++
      [1, 0, 0, 0] ++ [0, 0, 0, 0]) 0 (by decide) (by decide)).2 (by decide) (by decide)
    have hoff : leNat (bytesAt (List.replicate 0x100 0 ++ [78, 67, 67, 72] ++
        List.replicate 0x84 0 ++ List.replicate 7 0 ++ [4] ++ List.replicate 0x10 0 ++
        [1, 0, 0, 0] ++ [0, 0, 0, 0]) (0 + 0x1A0) 4) * 0x200 % 2 ^ 32 = 512 := by decide
    rw [hoff] at h
    simpa using h
  · exact (from_cxi_contract (List.replicate 0x100 0 ++ [78, 67, 67, 72] ++
      List.replicate 0x8C 0) 0 (by decide) (by decide)).1.mpr (by decide)

/-- Claim C10: the media-unit scaling in the cartridge-image partition reader
and in the executable-container filesystem-offset reader is a 32-bit
multiplication: the stored unit `u` yields byte offset `u * 512 mod 2^32`,
and for any representable `u ≥ 2^23` the computed offset differs from the
mathematical `u * 512`. -/
theorem media_unit_scaling_wraps :
    (∀ (d : List Nat) (q : Nat), q + 8 ≤ d.length →
      CCIPartition.from_data ⟨d, q⟩ = .ok (⟨leNat (bytesAt d q 4) * 0x200 % 2 ^ 32,
        leNat (bytesAt d (q + 4) 4) * 0x200 % 2 ^ 32⟩, ⟨d, q + 8⟩)) ∧
    (∀ (d : List Nat) (p : Nat), bytesAt d (p + 0x100) 4 = cxiMagicBytes →
      p + 0x190 ≤ d.length → (bytesAt d (p + 0x188) 8).getD 7 0 &&& 0x4 = 0x4 →
      p + 0x1A8 ≤ d.length →
      SMDHIcon.from_cxi ⟨d, p⟩ =
        SMDHIcon.from_exefs ⟨d, p + leNat (bytesAt d (p + 0x1A0) 4) * 0x200 % 2 ^ 32⟩) ∧
    (∀ u : Nat, 2 ^ 23 ≤ u → u < 2 ^ 32 → u * 0x200 % 2 ^ 32 ≠ u * 0x200) := by
  refine ⟨cciPartition_from_data_ok, fun d p hmag hlen hbit hlen2 =>
    from_cxi_delegate d p hmag hlen hbit hlen2, ?_⟩
  intro u h1 h2 h3
  have hlt : u * 0x200 % 2 ^ 32 < 2 ^ 32 := Nat.mod_lt _ (by norm_num)
  have hge : 2 ^ 32 ≤ u * 0x200 := by
    calc (2 : Nat) ^ 32 = 2 ^ 23 * 0x200 := by norm_num
    _ ≤ u * 0x200 := Nat.mul_le_mul_right _ h1
  omega

/-- Witness for C10: the partition entry `[0, 0, 128, 0 | 0, 0, 0, 0]` stores
offset unit `2^23`, and the computed byte offset is 0, not `2^23 * 512`. -/
theorem media_unit_scaling_wraps_witness :
    CCIPartition.from_data ⟨[0, 0, 128, 0, 0, 0, 0, 0], 0⟩ =
      .ok (⟨leNat (bytesAt [0, 0, 128, 0, 0, 0, 0, 0] 0 4) * 0x200 % 2 ^ 32,
        leNat (bytesAt [0, 0, 128, 0, 0, 0, 0, 0] (0 + 4) 4) * 0x200 % 2 ^ 32⟩,
        ⟨[0, 0, 128, 0, 0, 0, 0, 0], 0 + 8⟩) ∧
    (2 : Nat) ^ 23 * 0x200 % 2 ^ 32 ≠ 2 ^ 23 * 0x200 := by
  constructor
  · exact media_unit_scaling_wraps.1 [0, 0, 128, 0, 0, 0, 0, 0] 0 (by decide)
  · exact media_unit_scaling_wraps.2.2 (2 ^ 23) (le_refl _) (by norm_num)

/-- Claim C8: when the embedded-filesystem resolver successfully reads the 10
fixed 16-byte directory slots, all-zero slots produce no entry; if no decoded
entry is named `"icon"` it fails with the icon-entry-not-found error, and if
an entry named `"icon"` with byte offset `o` exists it seeks forward by
`0x200 + o - 0xA0` bytes from the position after the table (entry position
plus 0xA0) and delegates to the icon-metadata resolver. -/
theorem from_exefs_contract (d : List Nat) (q : Nat)
    (hs : List (Option ExeFSFileHeader)) (s₂ : ByteStream)
    (hread : readExeFSHeaders 10 ⟨d, q⟩ = .ok (hs, s₂)) :
    (∀ s : ByteStream, s.pos + 16 ≤ s.data.length →
      bytesAt s.data s.pos 16 = List.replicate 16 0 →
      ExeFSFileHeader.from_data s = .ok (Option.none, ⟨s.data, s.pos + 16⟩)) ∧
    ((hs.filterMap id).find? (fun item => item.file_name == iconNameBytes) =
        Option.none →
      SMDHIcon.from_exefs ⟨d, q⟩ = .error .exefsIconFileNotFound) ∧
    (∀ hdr : ExeFSFileHeader,
      (hs.filterMap id).find? (fun item => item.file_name == iconNameBytes) = some hdr →
      SMDHIcon.from_exefs ⟨d, q⟩ =
        SMDHIcon.from_smdh ⟨d, q + 0xA0 + (0x200 + hdr.file_offset - 0xA0)⟩) := by
  refine ⟨?_, fun hf => from_exefs_not_found d q hs s₂ hread hf,
    fun hdr hf => from_exefs_found d q hs s₂ hdr hread hf⟩
  intro s hl hz
  cases s with
  | mk d' q' => exact exefs_from_data_zero d' q' hl hz

set_option maxRecDepth 8000 in
/-- Witness for C8: the table `[zero, zero, "icon"@offset 100, zero × 7]`
resolves via offset 100: the resolver delegates to the icon-metadata resolver
at `0 + 0xA0 + (0x200 + 100 - 0xA0)`. -/
theorem from_exefs_contract_witness :
    SMDHIcon.from_exefs ⟨List.replicate 32 0 ++
        [105, 99, 111, 110, 0, 0, 0, 0, 100, 0, 0, 0, 0, 0, 0, 0] ++
        List.replicate 112 0, 0⟩ =
      SMDHIcon.from_smdh ⟨List.replicate 32 0 ++
        [105, 99, 111, 110, 0, 0, 0, 0, 100, 0, 0, 0, 0, 0, 0, 0] ++
        List.replicate 112 0, 0 + 0xA0 + (0x200 + 100 - 0xA0)⟩ :=
  (from_exefs_contract (List.replicate 32 0 ++
      [105, 99, 111, 110, 0, 0, 0, 0, 100, 0, 0, 0, 0, 0, 0, 0] ++ List.replicate 112 0) 0
    [Option.none, Option.none, some ⟨[105, 99, 111, 110], 100, 0⟩, Option.none,
      Option.none, Option.none, Option.none, Option.none, Option.none, Option.none]
    ⟨List.replicate 32 0 ++ [105, 99, 111, 110, 0, 0, 0, 0, 100, 0, 0, 0, 0, 0, 0, 0] ++
      List.replicate 112 0, 160⟩
    (by rfl)).2.2 ⟨[105, 99, 111, 110], 100, 0⟩ (by rfl)

/-- Claim C9 (amended): for every non-all-zero 16-byte directory slot, the
decoded entry name equals the slot's first 8 bytes interpreted as text with
zero padding removed from BOTH ends (leading zero bytes are removed too, as
by `str::trim_matches`), and decoding fails with the invalid-name-encoding
error exactly when those 8 bytes are not valid text. -/
theorem exefs_entry_decode (d : List Nat) (q : Nat) (hlen : q + 16 ≤ d.length)
    (hnz : bytesAt d q 16 ≠ List.replicate 16 0) :
    (ExeFSFileHeader.from_data ⟨d, q⟩ = .error .exefsUtf8Error ↔
      utf8Valid (bytesAt d q 8) = false) ∧
    (utf8Valid (bytesAt d q 8) = true →
      ExeFSFileHeader.from_data ⟨d, q⟩ = .ok (some ⟨trimZeroBytes (bytesAt d q 8),
        leNat (bytesAt d (q + 8) 4), leNat (bytesAt d (q + 12) 4)⟩, ⟨d, q + 16⟩)) := by
  constructor
  · constructor
    · intro h
      rcases Bool.eq_false_or_eq_true (utf8Valid (bytesAt d q 8)) with hu | hu
      · rw [exefs_from_data_valid d q hlen hnz hu] at h
        cases h
      · exact hu
    · exact exefs_from_data_invalid d q hlen hnz
  · exact exefs_from_data_valid d q hlen hnz

/-- Witness for C9 (amended): the slot `"icon\0\0\0\0" | offset 100 | size 0`
decodes to the entry named `"icon"` with offset 100; a slot whose name bytes
are not valid UTF-8 fails with the invalid-name-encoding error. -/
theorem exefs_entry_decode_witness :
    ExeFSFileHeader.from_data
        ⟨[105, 99, 111, 110, 0, 0, 0, 0, 100, 0, 0, 0, 0, 0, 0, 0], 0⟩ =
      .ok (some ⟨trimZeroBytes (bytesAt
          [105, 99, 111, 110, 0, 0, 0, 0, 100, 0, 0, 0, 0, 0, 0, 0] 0 8),
        leNat (bytesAt [105, 99, 111, 110, 0, 0, 0, 0, 100, 0, 0, 0, 0, 0, 0, 0] 8 4),
        leNat (bytesAt [105, 99, 111, 110, 0, 0, 0, 0, 100, 0, 0, 0, 0, 0, 0, 0] 12 4)⟩,
        ⟨[105, 99, 111, 110, 0, 0, 0, 0, 100, 0, 0, 0, 0, 0, 0, 0], 16⟩) ∧
    ExeFSFileHeader.from_data
        ⟨[255, 99, 111, 110, 0, 0, 0, 0, 100, 0, 0, 0, 0, 0, 0, 0], 0⟩ =
      .error .exefsUtf8Error := by
  constructor
  · exact (exefs_entry_decode [105, 99, 111, 110, 0, 0, 0, 0, 100, 0, 0, 0, 0, 0, 0, 0] 0
      (by decide) (by decide)).2 (by decide)
  · exact (exefs_entry_decode [255, 99, 111, 110, 0, 0, 0, 0, 100, 0, 0, 0, 0, 0, 0, 0] 0
      (by decide) (by decide)).1.mpr (by decide)

/-- Counterexample to C9 as stated: the slot whose name field is
`"\0icon\0\0\0"` decodes to the name `"icon"` — the LEADING zero byte is
removed as well — whereas the claim (leading bytes kept, only trailing zero
padding removed) predicts the name `"\0icon"`. -/
theorem exefs_name_trim_counterexample :
    ExeFSFileHeader.from_data
        ⟨[0, 105, 99, 111, 110, 0, 0, 0, 100, 0, 0, 0, 0, 0, 0, 0], 0⟩ =
      .ok (some ⟨[105, 99, 111, 110], 100, 0⟩,
        ⟨[0, 105, 99, 111, 110, 0, 0, 0, 100, 0, 0, 0, 0, 0, 0, 0], 16⟩) ∧
    ([105, 99, 111, 110] : List Nat) ≠ [0, 105, 99, 111, 110] := by
  constructor
  · rfl
  · decide
